import Mathlib

/-!
Verification of the min-cut edit-region segmentation subsystem of Vox-E
(`thre3d_atom/modules/refinement_functions.py`), as a shallow embedding.

Modelling conventions:
* float tensors become `ℚ`-valued grids when the code only compares / masks them
  (densities), and `ℝ`-valued data when transcendental functions are applied
  (softmax probabilities, feature sigmoids, edge weights);
* a dense `(X, Y, Z, 1)` tensor becomes a structure holding the three spatial
  dimensions and a total value function on coordinates (the trailing channel
  dimension of size 1 is dropped);
* `torch.nn.MaxPool3d(3, stride=1, padding=1)` applied to an `(X, Y, Z, 1)`
  tensor pools over the last three dimensions `(Y, Z, 1)` (the first dimension
  is treated as channels), so the dilation window is the 3x3 neighbourhood in
  the `y`/`z` coordinates only; the embedding reproduces exactly that;
* operations that raise Python exceptions (`torch.max` over an empty tensor,
  `torch.topk` with `k` larger than the input, the entry `assert`s, boolean
  mask indexing with mismatched shapes, and the IndexError `gen_id` raises on
  unit-dimension grids once `squeeze()` has collapsed those dimensions)
  become `Except` values;
* the external PyMaxflow solver is modelled by its contract: the returned
  segmentation is a labelling minimising the capacity of the induced cut;
* `torch.randperm` is modelled by an injectable permutation parameter.
-/

namespace VoxE

/-- A 3-D integer coordinate `(cx, cy, cz)`. -/
abbrev Coord := ℕ × ℕ × ℕ

/-- A 3-D integer offset. -/
abbrev CoordZ := ℤ × ℤ × ℤ

/-- A dense rational-valued voxel grid of shape `(X, Y, Z, 1)`
(densities in `build_graph`; the channel dimension is dropped). -/
structure GridQ where
  dimX : ℕ
  dimY : ℕ
  dimZ : ℕ
  val : Coord → ℚ

/-- A dense real-valued voxel grid of shape `(X, Y, Z, 1)` (attention fields). -/
structure GridR where
  dimX : ℕ
  dimY : ℕ
  dimZ : ℕ
  val : Coord → ℝ

/-- A dense feature grid of shape `(X, Y, Z, C)`: a rational feature vector
(`_features` before the sigmoid activation) at every coordinate. -/
structure GridF where
  dimX : ℕ
  dimY : ℕ
  dimZ : ℕ
  val : Coord → List ℚ

def GridQ.dims (g : GridQ) : Coord := (g.dimX, g.dimY, g.dimZ)

def GridR.dims (g : GridR) : Coord := (g.dimX, g.dimY, g.dimZ)

def GridF.dims (g : GridF) : Coord := (g.dimX, g.dimY, g.dimZ)

/-- All grid coordinates in the row-major order produced by
`torch.meshgrid(..., indexing='ij')` followed by a flatten
(`x` slowest, `z` fastest); lines 188-195 of `refinement_functions.py`. -/
def coordList (X Y Z : ℕ) : List Coord :=
  (List.range X) ×ˢ ((List.range Y) ×ˢ (List.range Z))

/-- In-bounds predicate for a coordinate of an `(X, Y, Z)` grid. -/
def inBoundsC (g : GridQ) (c : Coord) : Prop :=
  c.1 < g.dimX ∧ c.2.1 < g.dimY ∧ c.2.2 < g.dimZ

instance (g : GridQ) (c : Coord) : Decidable (inBoundsC g c) := by
  unfold inBoundsC; infer_instance

/-- The 3x3 window offsets of the max-pool in the `(y, z)` plane. -/
def poolOffsets : List (ℤ × ℤ) :=
  [(-1, -1), (-1, 0), (-1, 1), (0, -1), (0, 0), (0, 1), (1, -1), (1, 0), (1, 1)]

/-- The dilated density `m(densities)` of line 185: `MaxPool3d(3, 1, 1)` on an
`(X, Y, Z, 1)` tensor pools over `(Y, Z, 1)`, i.e. the max of the density over
the in-bounds 3x3 window in `y`/`z` around the voxel (padding is `-inf` and
never contributes). The window always contains the voxel itself. -/
def dilated (g : GridQ) (c : Coord) : ℚ :=
  (poolOffsets.filterMap fun o =>
    let ny : ℤ := (c.2.1 : ℤ) + o.1
    let nz : ℤ := (c.2.2 : ℤ) + o.2
    if 0 ≤ ny ∧ ny < g.dimY ∧ 0 ≤ nz ∧ nz < g.dimZ then
      some (g.val (c.1, ny.toNat, nz.toNat))
    else none).foldl max (g.val c)

/-- The list of active-voxel coordinates `idx_values` (line 195): coordinates
whose dilated density is strictly positive, in row-major order. -/
def activeCoords (g : GridQ) : List Coord :=
  (coordList g.dimX g.dimY g.dimZ).filter fun c => decide (0 < dilated g c)

/-- `num_nodes` of line 198. -/
def numNodes (g : GridQ) : ℕ := (activeCoords g).length

/-- The node-id hash `gen_id` of lines 175-177:
`id = c.x + c.y * X + c.z * X * Y`. -/
def genId (c : Coord) (x y : ℕ) : ℕ := c.1 + c.2.1 * x + c.2.2 * x * y

/-- The coordinate of node `i` (`idx_values[i]`). -/
def coordOf (g : GridQ) (i : ℕ) : Coord := (activeCoords g).getD i (0, 0, 0)

/-- The node index stored in `idx_dict` for a coordinate: the (unique) node
whose coordinate has the same `gen_id` hash (lines 200-203, 288). -/
def nodeIdx (g : GridQ) (c : Coord) : ℕ :=
  (activeCoords g).findIdx fun c' =>
    decide (genId c' g.dimX g.dimY = genId c g.dimX g.dimY)

/-- The six face-neighbour offsets `g_neighbor_offsets` (lines 13-14). -/
def neighborOffsets : List CoordZ :=
  [(-1, 0, 0), (0, -1, 0), (0, 0, -1), (1, 0, 0), (0, 1, 0), (0, 0, 1)]

/-- Embed a coordinate into `ℤ³`. -/
def coordZ (c : Coord) : CoordZ := ((c.1 : ℤ), (c.2.1 : ℤ), (c.2.2 : ℤ))

/-- `nidx + n_offset` (line 278 etc.). -/
def shiftCoord (c : Coord) (o : CoordZ) : CoordZ :=
  ((c.1 : ℤ) + o.1, (c.2.1 : ℤ) + o.2.1, (c.2.2 : ℤ) + o.2.2)

/-- `((nidx + n_offset) >= m).sum() > 0`: some component is `≥ m`
(the code compares all three components against each dimension in turn,
lines 278-279). -/
def anyGe (p : CoordZ) (m : ℕ) : Bool :=
  decide ((m : ℤ) ≤ p.1) || decide ((m : ℤ) ≤ p.2.1) || decide ((m : ℤ) ≤ p.2.2)

/-- `((nidx + n_offset) < 0).sum() > 0`: some component is negative (line 282). -/
def anyNeg (p : CoordZ) : Bool :=
  decide (p.1 < 0) || decide (p.2.1 < 0) || decide (p.2.2 < 0)

/-- Truncate an integer triple with non-negative components back to `Coord`. -/
def toCoord (p : CoordZ) : Coord := (p.1.toNat, p.2.1.toNat, p.2.2.toNat)

/-- The ordered `(node, neighbour-coordinate)` pairs for which
`g.add_edge` is called (lines 265-300): for each node `i` and each of the six
offsets, the neighbour is skipped when some component of `nidx + n_offset` is
`≥ dimX`, or `≥ dimY`, or `≥ dimZ` (the code's bound check, lines 278-280),
when some component is negative (line 282), or when the neighbour's raw
(undilated) density is `≤ 0` (line 285). -/
def addTargets (g : GridQ) : List (ℕ × Coord) :=
  (List.range (numNodes g)).flatMap fun i =>
    neighborOffsets.filterMap fun o =>
      let p := shiftCoord (coordOf g i) o
      if anyGe p g.dimX || anyGe p g.dimY || anyGe p g.dimZ then none
      else if anyNeg p then none
      else if g.val (toCoord p) ≤ 0 then none
      else some (i, toCoord p)

/-- Squared Euclidean distance between two feature vectors (channelwise). -/
noncomputable def sqDist (a b : List ℝ) : ℝ :=
  (List.zipWith (fun x y => (x - y) ^ 2) a b).sum

/-- `l2_colors` of line 294: the Euclidean norm of the difference of the two
(post-activation) feature vectors. -/
noncomputable def l2colors (f : Coord → List ℝ) (cv cn : Coord) : ℝ :=
  Real.sqrt (sqDist (f cv) (f cn))

/-- The edit-probability of the two-way softmax over `(edit, object)`
attention values (line 209). -/
noncomputable def pEditVal (e o : ℝ) : ℝ := Real.exp e / (Real.exp e + Real.exp o)

/-- The object-probability of the two-way softmax. -/
noncomputable def pObjVal (e o : ℝ) : ℝ := Real.exp o / (Real.exp e + Real.exp o)

/-- The attention value of a grid at node `i` (`edit_attn[non_zero_densities]`
ordering, line 207). -/
noncomputable def nodeVal (g : GridQ) (A : GridR) (i : ℕ) : ℝ := A.val (coordOf g i)

/-- The softmax probability pair of node `i` (`probs[i]`). -/
noncomputable def probsAt (g : GridQ) (A O : GridR) (i : ℕ) : ℝ × ℝ :=
  (pEditVal (nodeVal g A i) (nodeVal g O i), pObjVal (nodeVal g A i) (nodeVal g O i))

/-- `l2_probs` of line 293.  The source evaluates
`sqrt(((probs[i] - probs[nidx]) ** 2).sum())` where `nidx` is the *coordinate*
tensor, so `probs` is fancy-indexed by the three coordinate components
interpreted as node indices, broadcast against `probs[i]`.  Out-of-range
components raise in Python; the embedding totalises the lookup through
`coordOf`'s default.  The value is multiplied by `0.0` in the weight, so it
never influences any capacity. -/
noncomputable def l2probs (pr : ℕ → ℝ × ℝ) (i : ℕ) (c : Coord) : ℝ :=
  Real.sqrt (((pr i).1 - (pr c.1).1) ^ 2 + ((pr i).2 - (pr c.1).2) ^ 2
    + ((pr i).1 - (pr c.2.1).1) ^ 2 + ((pr i).2 - (pr c.2.1).2) ^ 2
    + ((pr i).1 - (pr c.2.2).1) ^ 2 + ((pr i).2 - (pr c.2.2).2) ^ 2)

/-- The edge weight of line 297:
`w = K * exp(-(l2_colors * 1.0 + l2_probs * 0.0) / sigma)`. -/
noncomputable def weightFn (K sigma l2c l2p : ℝ) : ℝ :=
  K * Real.exp (-(l2c * 1 + l2p * 0) / sigma)

/-- All `g.add_edge(nodes[i], nodes[neighbor], w, w)` calls of line 300:
one entry `(i, j, w)` per ordered `(node, neighbour)` pair that survives the
skips, with `j` obtained through the `idx_dict` lookup. -/
noncomputable def edgeAdds (g : GridQ) (f : Coord → List ℝ) (A O : GridR)
    (K sigma : ℝ) : List (ℕ × ℕ × ℝ) :=
  (addTargets g).map fun ic =>
    (ic.1, nodeIdx g ic.2,
      weightFn K sigma (l2colors f (coordOf g ic.1) ic.2)
        (l2probs (probsAt g A O) ic.1 ic.2))

/-- The binary segment label returned by the solver
(`get_segment`: 0 = source side = EDIT, 1 = sink side = OBJECT). -/
inductive Seg
  | edit
  | object
deriving DecidableEq

/-- The flow network handed to the solver: node count, terminal capacities
(in `ENNReal`, since the seeds get `np.inf`), and the list of n-link additions. -/
structure FlowGraph where
  numNodes : ℕ
  srcCap : ℕ → ENNReal
  snkCap : ℕ → ENNReal
  edges : List (ℕ × ℕ × ℝ)

/-- The graph built by `build_graph` (lines 265-300) from given seed index
sets: a node `i` in the edit-seed set gets `add_tedge(i, inf, 0)`; otherwise,
if it is in the object-seed set, it gets `add_tedge(i, 0, inf)` (the `elif` of
line 268); all other nodes keep `(0, 0)`. -/
noncomputable def buildFlowGraph (g : GridQ) (f : Coord → List ℝ) (A O : GridR)
    (K sigma : ℝ) (editSeeds objSeeds : List ℕ) : FlowGraph where
  numNodes := numNodes g
  srcCap := fun i => if i ∈ editSeeds then ⊤ else 0
  snkCap := fun i => if i ∈ editSeeds then 0 else if i ∈ objSeeds then ⊤ else 0
  edges := edgeAdds g f A O K sigma

/-- The capacity of the s-t cut induced by a labelling: terminal links crossing
the cut (source capacity of sink-side nodes, sink capacity of source-side
nodes) plus every n-link addition whose endpoints are labelled differently
(each `add_edge(i, j, w, w)` contributes `w` to a cut separating `i` from `j`,
in either orientation). -/
noncomputable def cutCap (G : FlowGraph) (L : ℕ → Seg) : ENNReal :=
  (∑ i ∈ Finset.range G.numNodes,
    ((if L i = Seg.object then G.srcCap i else 0)
      + (if L i = Seg.edit then G.snkCap i else 0)))
  + (G.edges.map fun e =>
      if L e.1 = L e.2.1 then 0 else ENNReal.ofReal e.2.2).sum

/-- Errors raised by the pipeline, tagged by where they occur. -/
inductive PipeErr
  /-- one of the two entry `assert`s of `get_edit_region`
  (lines 371-377) fails -/
  | entryAssert
  /-- the IndexError raised inside `gen_id` at line 203: `squeeze()` at line
  195 collapses every unit spatial dimension, so on a grid with a unit
  dimension each `idx_values[i]` row keeps residual size-1 dimensions instead
  of being a 3-vector, and `t_in[1]` (line 176) indexes a size-1 dimension
  with 1 as soon as the node loop runs (at least one active voxel) -/
  | genIdIndex
  /-- boolean-mask indexing `attn[non_zero_densities]` inside `build_graph`
  fails because the attention grid's shape differs from the density grid's
  (lines 207-208) -/
  | attnShape
  /-- `torch.max` over an empty tensor (line 212, zero active voxels) -/
  | emptyMax
  /-- `torch.topk(v, k)` with `k` larger than the number of active voxels
  (lines 224, 227) -/
  | topkRange
deriving DecidableEq

/-- Some spatial dimension equals 1, so `squeeze()` at line 195 collapses it
and the per-node coordinate rows `idx_values[i]` are not 3-vectors. -/
def hasUnitDim (g : GridQ) : Prop := g.dimX = 1 ∨ g.dimY = 1 ∨ g.dimZ = 1

instance (g : GridQ) : Decidable (hasUnitDim g) := by
  unfold hasUnitDim; infer_instance

/-- Insert an index into a list sorted by decreasing value. -/
noncomputable def insertDesc (v : ℕ → ℝ) (a : ℕ) : List ℕ → List ℕ
  | [] => [a]
  | b :: bs => if v b ≤ v a then a :: b :: bs else b :: insertDesc v a bs

/-- Sort indices by decreasing value. -/
noncomputable def sortDesc (v : ℕ → ℝ) : List ℕ → List ℕ
  | [] => []
  | a :: as => insertDesc v a (sortDesc v as)

/-- `torch.topk(v, k)` over `n` values: the indices of the `k` largest values
(by decreasing value); raises when `k > n`. -/
noncomputable def topkIdx (v : ℕ → ℝ) (n k : ℕ) : Except PipeErr (List ℕ) :=
  if k ≤ n then Except.ok ((sortDesc v (List.range n)).take k)
  else Except.error PipeErr.topkRange

/-- The edit probability of active voxel `i` given the two per-node attention
value streams. -/
noncomputable def pEditAt (eV oV : ℕ → ℝ) (i : ℕ) : ℝ := pEditVal (eV i) (oV i)

/-- The object probability of active voxel `i`. -/
noncomputable def pObjAt (eV oV : ℕ → ℝ) (i : ℕ) : ℝ := pObjVal (eV i) (oV i)

/-- `top_prob_edit = torch.max(probs[..., 0])` of line 212 (meaningful when
`0 < n`; the `n = 0` case raises before this value is used). -/
noncomputable def topProbEdit (n : ℕ) (eV oV : ℕ → ℝ) : ℝ :=
  ((List.range n).map (pEditAt eV oV)).foldl max (pEditAt eV oV 0)

open Classical in
/-- `best_voxels_edit_mask.nonzero()` of lines 213-214: the active voxels whose
edit probability reaches `0.992` of the maximum. -/
noncomputable def primaryEditIdxs (n : ℕ) (eV oV : ℕ → ℝ) : List ℕ :=
  (List.range n).filter fun i =>
    decide ((0.992 : ℝ) * topProbEdit n eV oV ≤ pEditAt eV oV i)

open Classical in
/-- `obj_idxs` of lines 216-218: the object-dominant active voxels. -/
noncomputable def objDominantIdxs (n : ℕ) (eV oV : ℕ → ℝ) : List ℕ :=
  (List.range n).filter fun i => decide (pEditAt eV oV i < pObjAt eV oV i)

/-- The seed selection of `build_graph` (lines 205-228).  `perm` models
`torch.randperm(obj_idxs.size(0))`: the object seeds are the object-dominant
voxels at the first 5000 permuted positions.  When fewer than 300 voxels pass
the primary edit rule, both sets are replaced by raw-attention top-k
selections (300 edit, 200 object); `torch.topk` raises when the active set is
smaller than `k`, and `torch.max` raises when it is empty. -/
noncomputable def selectSeeds (n : ℕ) (eV oV : ℕ → ℝ) (perm : List ℕ) :
    Except PipeErr (List ℕ × List ℕ) :=
  if n = 0 then Except.error PipeErr.emptyMax
  else if (primaryEditIdxs n eV oV).length < 300 then
    match topkIdx eV n 300 with
    | Except.error e => Except.error e
    | Except.ok es =>
      match topkIdx oV n 200 with
      | Except.error e => Except.error e
      | Except.ok os => Except.ok (es, os)
  else
    Except.ok (primaryEditIdxs n eV oV,
      (perm.take 5000).filterMap fun k => (objDominantIdxs n eV oV)[k]?)

/-- The prefix of `build_graph` (lines 181-228) that can raise, in source
order: the `idx_dict` loop of lines 202-203 runs `gen_id` on each
`idx_values[i]` and raises an IndexError when the grid has a unit spatial
dimension (collapsed by the `squeeze()` of line 195) and there is at least
one node; next, the mask indexing `attn[non_zero_densities]` of lines 207-208
requires the attention grids to have the density grid's shape; after that the
seed selection runs on the active-voxel attention values. -/
noncomputable def buildGraphSeeds (g : GridQ) (A O : GridR) (perm : List ℕ) :
    Except PipeErr (List ℕ × List ℕ) :=
  if hasUnitDim g ∧ numNodes g ≠ 0 then Except.error PipeErr.genIdIndex
  else if A.dims ≠ g.dims then Except.error PipeErr.attnShape
  else if O.dims ≠ g.dims then Except.error PipeErr.attnShape
  else selectSeeds (numNodes g) (nodeVal g A) (nodeVal g O) perm

/-- Value-equality of two density grids, the condition of the first entry
`assert` (lines 371-373).  `torch.eq` broadcasts, so the model (exact shape
plus value equality) coarsens the broadcastable-mismatched-shape corner; the
claims only exercise this check on identical grids, where the two agree. -/
def gridEqQ (a b : GridQ) : Bool :=
  decide (a.dims = b.dims) &&
    (coordList a.dimX a.dimY a.dimZ).all fun c => decide (a.val c = b.val c)

/-- Value-equality of two feature grids, the condition of the second entry
`assert` (lines 375-377); the same broadcast caveat as `gridEqQ` applies and
is likewise only exercised on identical grids. -/
def gridEqF (a b : GridF) : Bool :=
  decide (a.dims = b.dims) &&
    (coordList a.dimX a.dimY a.dimZ).all fun c => decide (a.val c = b.val c)

/-- The entry of `get_edit_region` (lines 360-406): the two `assert`s compare
the models' density values and feature values; nothing at entry inspects the
attention grids, whose shapes are only exercised inside `build_graph`. -/
noncomputable def getEditRegion (dE dO : GridQ) (fE fO : GridF) (A O : GridR)
    (perm : List ℕ) : Except PipeErr (List ℕ × List ℕ) :=
  if gridEqQ dE dO then
    if gridEqF fE fO then buildGraphSeeds dE A O perm
    else Except.error PipeErr.entryAssert
  else Except.error PipeErr.entryAssert

/-- Sequential assignment of one value at a list of cells into a dense grid
(`grid[mask] = v` / the write loop of lines 347-348). -/
noncomputable def writeCells (g0 : Coord → ℝ) (cells : List Coord) (v : ℝ) :
    Coord → ℝ :=
  cells.foldl (fun acc c => fun c' => if c' = c then v else acc c') g0

/-- `idxs[ids == 0]` of line 346: the coordinates of the nodes labelled EDIT
(segment 0). -/
def editCoordsOf (ids : List ℕ) (idxs : List Coord) : List Coord :=
  (List.zip ids idxs).filterMap fun p => if p.1 = 0 then some p.2 else none

/-- The grid assigned to the output model's attention field
(`set_and_visualize_refined_grid`, lines 344-349): start from `-20`
everywhere, write `-10` at every voxel with positive dilated density, then
write `0` at the coordinate of every node labelled EDIT. -/
noncomputable def refinedGrid (g : GridQ) (ids : List ℕ) (idxs : List Coord) :
    Coord → ℝ :=
  writeCells (writeCells (fun _ => (-20 : ℝ)) (activeCoords g) (-10))
    (editCoordsOf ids idxs) 0

open Classical in
/-- The diagnostic comparison grid of lines 328-330: `-20` everywhere, `0`
where the edit attention exceeds the object attention. -/
noncomputable def gtCompareGrid (A O : GridR) : Coord → ℝ :=
  writeCells (fun _ => (-20 : ℝ))
    ((coordList A.dimX A.dimY A.dimZ).filter fun c => decide (O.val c < A.val c)) 0

/-- The neighbour adjacency actually used by the builder: `b` is reachable
from `a` by one of the six face offsets. -/
def adjacent (a b : Coord) : Prop :=
  ∃ o ∈ neighborOffsets, shiftCoord a o = coordZ b

/-- All three components of a coordinate are below `m`. -/
def allCompLt (c : Coord) (m : ℕ) : Prop :=
  c.1 < m ∧ c.2.1 < m ∧ c.2.2 < m

/-- A coordinate passes the code's (component-against-every-dimension) bound
check of lines 278-280. -/
def codeBoundOK (g : GridQ) (c : Coord) : Prop :=
  allCompLt c g.dimX ∧ allCompLt c g.dimY ∧ allCompLt c g.dimZ

instance (a b : Coord) : Decidable (adjacent a b) := by
  unfold adjacent; exact List.decidableBEx _ _

instance (c : Coord) (m : ℕ) : Decidable (allCompLt c m) := by
  unfold allCompLt; infer_instance

instance (g : GridQ) (c : Coord) : Decidable (codeBoundOK g c) := by
  unfold codeBoundOK; infer_instance

/-! ### Concrete instances used by witnesses and counterexamples -/

/-- A 1x1x1 grid with one positive-density voxel. -/
def gOne : GridQ := ⟨1, 1, 1, fun _ => 1⟩

/-- A 2x2x2 grid with positive raw density exactly at `(0,0,0)` and
`(0,0,1)`; dilation activates the whole `x = 0` plane. -/
def gEx2 : GridQ := ⟨2, 2, 2, fun c => if c = (0, 0, 0) ∨ c = (0, 0, 1) then 1 else -1⟩

/-- A 1x1x1 zero attention field. -/
noncomputable def aOne : GridR := ⟨1, 1, 1, fun _ => 0⟩

/-- A zero attention field whose shape does not match a 1x1x1 density grid. -/
noncomputable def aBad : GridR := ⟨2, 1, 1, fun _ => 0⟩

/-- A 2x2x2 zero attention field. -/
noncomputable def aEx2 : GridR := ⟨2, 2, 2, fun _ => 0⟩

/-- A trivial feature grid. -/
def fOne : GridF := ⟨1, 1, 1, fun _ => []⟩

/-- Trivial post-activation features. -/
noncomputable def fEmpty : Coord → List ℝ := fun _ => []

/-- Per-node edit-attention values of the witness instance for the fallback
claim: one voxel with attention `1`, all others `0`. -/
noncomputable def witEV : ℕ → ℝ := fun i => if i = 0 then 1 else 0

/-- Per-node object-attention values of the fallback witness instance. -/
noncomputable def witOV : ℕ → ℝ := fun _ => 0

/-! ### Helper lemmas about the embedding -/

theorem mem_coordList {X Y Z : ℕ} {c : Coord} :
    c ∈ coordList X Y Z ↔ c.1 < X ∧ c.2.1 < Y ∧ c.2.2 < Z := by
  obtain ⟨a, b, d⟩ := c
  simp [coordList, List.mem_range]

theorem nodup_coordList (X Y Z : ℕ) : (coordList X Y Z).Nodup :=
  List.Nodup.product (List.nodup_range X)
    (List.Nodup.product (List.nodup_range Y) (List.nodup_range Z))

theorem getD_eq_get {α : Type} (l : List α) (i : ℕ) (d : α)
    (h : i < l.length) : l.getD i d = l.get ⟨i, h⟩ := by
  rw [List.getD_eq_getElem?_getD, List.getElem?_eq_getElem h]
  rfl

theorem mem_activeCoords {g : GridQ} {c : Coord} :
    c ∈ activeCoords g ↔ inBoundsC g c ∧ 0 < dilated g c := by
  simp [activeCoords, List.mem_filter, mem_coordList, inBoundsC, and_assoc]

theorem nodup_activeCoords (g : GridQ) : (activeCoords g).Nodup :=
  (nodup_coordList _ _ _).filter _

theorem le_foldl_max (l : List ℚ) (a : ℚ) : a ≤ l.foldl max a := by
  induction l generalizing a with
  | nil => exact le_refl a
  | cons x xs ih => exact le_trans (le_max_left a x) (ih (max a x))

theorem val_le_dilated (g : GridQ) (c : Coord) : g.val c ≤ dilated g c :=
  le_foldl_max _ _

theorem le_foldl_max_real (l : List ℝ) (a : ℝ) : a ≤ l.foldl max a := by
  induction l generalizing a with
  | nil => exact le_refl a
  | cons x xs ih => exact le_trans (le_max_left a x) (ih (max a x))

theorem genId_inj {X Y : ℕ} {c1 c2 : Coord} (h11 : c1.1 < X) (h12 : c1.2.1 < Y)
    (h21 : c2.1 < X) (h22 : c2.2.1 < Y)
    (h : genId c1 X Y = genId c2 X Y) : c1 = c2 := by
  obtain ⟨a1, b1, d1⟩ := c1
  obtain ⟨a2, b2, d2⟩ := c2
  simp only [genId] at h
  have hX : 0 < X := Nat.lt_of_le_of_lt (Nat.zero_le a1) h11
  have hY : 0 < Y := Nat.lt_of_le_of_lt (Nat.zero_le b1) h12
  have h' : a1 + X * (b1 + Y * d1) = a2 + X * (b2 + Y * d2) := by
    have e1 : a1 + b1 * X + d1 * X * Y = a1 + X * (b1 + Y * d1) := by ring
    have e2 : a2 + b2 * X + d2 * X * Y = a2 + X * (b2 + Y * d2) := by ring
    rw [← e1, ← e2]; exact h
  have ha : a1 = a2 := by
    have := congrArg (· % X) h'
    simpa [Nat.add_mul_mod_self_left, Nat.mod_eq_of_lt h11, Nat.mod_eq_of_lt h21]
      using this
  have hm : b1 + Y * d1 = b2 + Y * d2 := by
    have := congrArg (· / X) h'
    simp only [Nat.add_mul_div_left _ _ hX] at this
    simpa [Nat.div_eq_of_lt h11, Nat.div_eq_of_lt h21] using this
  have hb : b1 = b2 := by
    have := congrArg (· % Y) hm
    simpa [Nat.add_mul_mod_self_left, Nat.mod_eq_of_lt h12, Nat.mod_eq_of_lt h22]
      using this
  have hd : d1 = d2 := by
    have := congrArg (· / Y) hm
    simp only [Nat.add_mul_div_left _ _ hY] at this
    simpa [Nat.div_eq_of_lt h12, Nat.div_eq_of_lt h22] using this
  simp [ha, hb, hd]

theorem findIdx_getD_of_iff {α : Type} (p : α → Bool) (c d : α) :
    ∀ (l : List α), c ∈ l → (∀ x ∈ l, p x = true ↔ x = c) →
      l.findIdx p < l.length ∧ l.getD (l.findIdx p) d = c := by
  intro l
  induction l with
  | nil => intro h; cases h
  | cons a as ih =>
    intro hc hiff
    by_cases hpa : p a = true
    · have hac : a = c := (hiff a (List.mem_cons_self a as)).1 hpa
      rw [List.findIdx_cons, hpa]
      simp [hac]
    · have hne : a ≠ c := fun h => hpa ((hiff a (List.mem_cons_self a as)).2 h)
      have hcas : c ∈ as := by
        rcases List.mem_cons.1 hc with h | h
        · exact absurd h.symm hne
        · exact h
      obtain ⟨h1, h2⟩ := ih hcas fun x hx => hiff x (List.mem_cons_of_mem _ hx)
      rw [List.findIdx_cons]
      simp only [hpa, cond_false]
      exact ⟨Nat.succ_lt_succ h1, by simpa using h2⟩

theorem nodeIdx_spec {g : GridQ} {c : Coord} (hc : c ∈ activeCoords g) :
    nodeIdx g c < numNodes g ∧ coordOf g (nodeIdx g c) = c := by
  apply findIdx_getD_of_iff _ c (0, 0, 0) _ hc
  intro x hx
  have hxb := (mem_activeCoords.1 hx).1
  have hcb := (mem_activeCoords.1 hc).1
  constructor
  · intro h
    exact genId_inj hxb.1 hxb.2.1 hcb.1 hcb.2.1 (of_decide_eq_true h)
  · intro h
    subst h
    exact decide_eq_true rfl

theorem coordOf_eq_get {g : GridQ} {j : ℕ} (hj : j < numNodes g) :
    coordOf g j = (activeCoords g).get ⟨j, hj⟩ :=
  getD_eq_get _ _ _ hj

theorem coordOf_mem {g : GridQ} {j : ℕ} (hj : j < numNodes g) :
    coordOf g j ∈ activeCoords g := by
  rw [coordOf_eq_get hj]
  exact List.get_mem _ _ hj

theorem nodeIdx_coordOf {g : GridQ} {j : ℕ} (hj : j < numNodes g) :
    nodeIdx g (coordOf g j) = j := by
  obtain ⟨h1, h2⟩ := nodeIdx_spec (coordOf_mem hj)
  have hnd := nodup_activeCoords g
  have heq : (activeCoords g).get ⟨nodeIdx g (coordOf g j), h1⟩
      = (activeCoords g).get ⟨j, hj⟩ := by
    rw [← coordOf_eq_get h1, ← coordOf_eq_get hj]
    exact h2
  have hfin := (List.Nodup.get_inj_iff hnd).1 heq
  exact congrArg Fin.val hfin

theorem writeCells_eval (g0 : Coord → ℝ) (cells : List Coord) (v : ℝ) (c : Coord) :
    writeCells g0 cells v c = if c ∈ cells then v else g0 c := by
  induction cells generalizing g0 with
  | nil => simp [writeCells]
  | cons a as ih =>
    show writeCells (fun c' => if c' = a then v else g0 c') as v c = _
    rw [ih]
    by_cases h1 : c ∈ as
    · simp [h1, List.mem_cons]
    · by_cases h2 : c = a <;> simp [h1, h2, List.mem_cons]

theorem toCoord_coordZ (c : Coord) : toCoord (coordZ c) = c := by
  obtain ⟨a, b, d⟩ := c
  simp [toCoord, coordZ]

theorem anyNeg_coordZ (c : Coord) : anyNeg (coordZ c) = false := by
  obtain ⟨a, b, d⟩ := c
  simp [anyNeg, coordZ]

theorem coordZ_toCoord {p : CoordZ} (h : anyNeg p = false) :
    coordZ (toCoord p) = p := by
  obtain ⟨a, b, d⟩ := p
  simp only [anyNeg, Bool.or_eq_false_iff, decide_eq_false_iff_not, not_lt] at h
  simp [coordZ, toCoord, Int.toNat_of_nonneg h.1.1, Int.toNat_of_nonneg h.1.2,
    Int.toNat_of_nonneg h.2]

theorem mem_addTargets {g : GridQ} {i : ℕ} {c : Coord} :
    (i, c) ∈ addTargets g ↔
      i < numNodes g ∧ ∃ o ∈ neighborOffsets,
        shiftCoord (coordOf g i) o = coordZ c ∧
        (anyGe (coordZ c) g.dimX || anyGe (coordZ c) g.dimY
          || anyGe (coordZ c) g.dimZ) = false ∧
        0 < g.val c := by
  unfold addTargets
  rw [List.mem_flatMap]
  constructor
  · rintro ⟨j, hj, hmem⟩
    rw [List.mem_range] at hj
    rw [List.mem_filterMap] at hmem
    obtain ⟨o, ho, heq⟩ := hmem
    simp only at heq
    by_cases hge : (anyGe (shiftCoord (coordOf g j) o) g.dimX
        || anyGe (shiftCoord (coordOf g j) o) g.dimY
        || anyGe (shiftCoord (coordOf g j) o) g.dimZ) = true
    · rw [if_pos hge] at heq; cases heq
    · rw [if_neg hge] at heq
      by_cases hneg : anyNeg (shiftCoord (coordOf g j) o) = true
      · rw [if_pos hneg] at heq; cases heq
      · rw [if_neg hneg] at heq
        by_cases hval : g.val (toCoord (shiftCoord (coordOf g j) o)) ≤ 0
        · rw [if_pos hval] at heq; cases heq
        · rw [if_neg hval] at heq
          simp only [Option.some.injEq, Prod.mk.injEq] at heq
          obtain ⟨rfl, rfl⟩ := heq
          have hcz : coordZ (toCoord (shiftCoord (coordOf g j) o))
              = shiftCoord (coordOf g j) o :=
            coordZ_toCoord (Bool.not_eq_true _ ▸ hneg)
          refine ⟨hj, o, ho, hcz.symm, ?_, lt_of_not_le hval⟩
          rw [hcz]
          exact Bool.not_eq_true _ ▸ hge
  · rintro ⟨hi, o, ho, hshift, hge, hval⟩
    refine ⟨i, List.mem_range.2 hi, ?_⟩
    rw [List.mem_filterMap]
    refine ⟨o, ho, ?_⟩
    simp only [hshift]
    rw [if_neg (by rw [hge]; exact Bool.false_ne_true), if_neg (by
      rw [anyNeg_coordZ]; exact Bool.false_ne_true), if_neg (by
      rw [toCoord_coordZ]; exact not_le_of_lt hval), toCoord_coordZ]

/-! ### Min-cut seed-respect lemmas -/

theorem listSum_ne_top {l : List ENNReal} (h : ∀ x ∈ l, x ≠ ⊤) : l.sum ≠ ⊤ := by
  induction l with
  | nil => simp
  | cons a as ih =>
    rw [List.sum_cons]
    exact ENNReal.add_ne_top.2 ⟨h a (List.mem_cons_self a as),
      ih fun x hx => h x (List.mem_cons_of_mem _ hx)⟩

/-- The labelling that puts exactly the edit seeds on the source side has a
finite cut capacity in the graph built by `build_graph`: no infinite terminal
link crosses it, and every n-link capacity is a real number. -/
theorem cutCap_canonical_ne_top (g : GridQ) (f : Coord → List ℝ) (A O : GridR)
    (K sigma : ℝ) (editSeeds objSeeds : List ℕ) :
    cutCap (buildFlowGraph g f A O K sigma editSeeds objSeeds)
      (fun i => if i ∈ editSeeds then Seg.edit else Seg.object) ≠ ⊤ := by
  unfold cutCap
  apply ENNReal.add_ne_top.2
  constructor
  · have hz : ∀ i ∈ Finset.range (buildFlowGraph g f A O K sigma editSeeds objSeeds).numNodes,
        ((if (if i ∈ editSeeds then Seg.edit else Seg.object) = Seg.object
            then (buildFlowGraph g f A O K sigma editSeeds objSeeds).srcCap i else 0)
          + (if (if i ∈ editSeeds then Seg.edit else Seg.object) = Seg.edit
            then (buildFlowGraph g f A O K sigma editSeeds objSeeds).snkCap i else 0)) = 0 := by
      intro i _
      by_cases hmem : i ∈ editSeeds <;> simp [buildFlowGraph, hmem]
    rw [Finset.sum_eq_zero hz]
    exact ENNReal.zero_ne_top
  · apply listSum_ne_top
    intro x hx
    rw [List.mem_map] at hx
    obtain ⟨e, _, rfl⟩ := hx
    by_cases hsame : (if e.1 ∈ editSeeds then Seg.edit else Seg.object)
        = (if e.2.1 ∈ editSeeds then Seg.edit else Seg.object)
    · rw [if_pos hsame]; exact ENNReal.zero_ne_top
    · rw [if_neg hsame]; exact ENNReal.ofReal_ne_top

/-- If a node with infinite source capacity ends on the sink side, the cut is
infinite. -/
theorem cutCap_eq_top_of_src (G : FlowGraph) (L : ℕ → Seg) (i : ℕ)
    (hi : i < G.numNodes) (hsrc : G.srcCap i = ⊤) (hL : L i = Seg.object) :
    cutCap G L = ⊤ := by
  unfold cutCap
  have hterm : ((if L i = Seg.object then G.srcCap i else 0)
      + (if L i = Seg.edit then G.snkCap i else 0)) = ⊤ := by
    rw [if_pos hL, hsrc, if_neg (by rw [hL]; exact fun h => Seg.noConfusion h)]
    simp
  have hle : (⊤ : ENNReal) ≤ ∑ j ∈ Finset.range G.numNodes,
      ((if L j = Seg.object then G.srcCap j else 0)
        + (if L j = Seg.edit then G.snkCap j else 0)) := by
    rw [← hterm]
    exact Finset.single_le_sum (f := fun j => ((if L j = Seg.object then G.srcCap j else 0)
      + (if L j = Seg.edit then G.snkCap j else 0))) (fun j _ => zero_le _)
      (Finset.mem_range.2 hi)
  rw [top_le_iff.1 hle]
  simp

/-- If a node with infinite sink capacity ends on the source side, the cut is
infinite. -/
theorem cutCap_eq_top_of_snk (G : FlowGraph) (L : ℕ → Seg) (i : ℕ)
    (hi : i < G.numNodes) (hsnk : G.snkCap i = ⊤) (hL : L i = Seg.edit) :
    cutCap G L = ⊤ := by
  unfold cutCap
  have hterm : ((if L i = Seg.object then G.srcCap i else 0)
      + (if L i = Seg.edit then G.snkCap i else 0)) = ⊤ := by
    rw [if_pos hL, hsnk, if_neg (by rw [hL]; exact fun h => Seg.noConfusion h)]
    simp
  have hle : (⊤ : ENNReal) ≤ ∑ j ∈ Finset.range G.numNodes,
      ((if L j = Seg.object then G.srcCap j else 0)
        + (if L j = Seg.edit then G.snkCap j else 0)) := by
    rw [← hterm]
    exact Finset.single_le_sum (f := fun j => ((if L j = Seg.object then G.srcCap j else 0)
      + (if L j = Seg.edit then G.snkCap j else 0))) (fun j _ => zero_le _)
      (Finset.mem_range.2 hi)
  rw [top_le_iff.1 hle]
  simp

/-- Any labelling of minimum cut capacity on the graph built by `build_graph`
labels every (in-range) edit seed EDIT and every object seed that is not also
an edit seed OBJECT. -/
theorem mincut_respects_seeds (g : GridQ) (f : Coord → List ℝ) (A O : GridR)
    (K sigma : ℝ) (editSeeds objSeeds : List ℕ) (L : ℕ → Seg)
    (hmin : ∀ L', cutCap (buildFlowGraph g f A O K sigma editSeeds objSeeds) L
      ≤ cutCap (buildFlowGraph g f A O K sigma editSeeds objSeeds) L') :
    (∀ i, i < numNodes g → i ∈ editSeeds → L i = Seg.edit) ∧
    (∀ i, i < numNodes g → i ∈ objSeeds → i ∉ editSeeds → L i = Seg.object) := by
  have hfin : cutCap (buildFlowGraph g f A O K sigma editSeeds objSeeds) L ≠ ⊤ := by
    intro htop
    exact cutCap_canonical_ne_top g f A O K sigma editSeeds objSeeds
      (top_le_iff.1 (htop ▸ hmin (fun i => if i ∈ editSeeds then Seg.edit else Seg.object)))
  constructor
  · intro i hi hmem
    cases hL : L i with
    | edit => rfl
    | object =>
      exact absurd (cutCap_eq_top_of_src _ L i hi (by simp [buildFlowGraph, hmem]) hL) hfin
  · intro i hi hmem hnot
    cases hL : L i with
    | object => rfl
    | edit =>
      exact absurd (cutCap_eq_top_of_snk _ L i hi
        (by simp [buildFlowGraph, hnot, hmem]) hL) hfin

/-! ### Helper lemmas about edges, seeds and the entry checks -/

theorem anyGe_false_lt {c : Coord} {m : ℕ} (h : anyGe (coordZ c) m = false) :
    allCompLt c m := by
  obtain ⟨a, b, d⟩ := c
  simp only [anyGe, coordZ, Bool.or_eq_false_iff, decide_eq_false_iff_not, not_le] at h
  exact ⟨by exact_mod_cast h.1.1, by exact_mod_cast h.1.2, by exact_mod_cast h.2⟩

theorem lt_anyGe_false {c : Coord} {m : ℕ} (h : allCompLt c m) :
    anyGe (coordZ c) m = false := by
  obtain ⟨a, b, d⟩ := c
  obtain ⟨h1, h2, h3⟩ := h
  simp only [anyGe, coordZ, Bool.or_eq_false_iff, decide_eq_false_iff_not, not_le]
  exact ⟨⟨by exact_mod_cast h1, by exact_mod_cast h2⟩, by exact_mod_cast h3⟩

theorem target_inBounds {g : GridQ} {i : ℕ} {c : Coord}
    (h : (i, c) ∈ addTargets g) : inBoundsC g c := by
  obtain ⟨-, o, -, -, hge, -⟩ := mem_addTargets.1 h
  rw [Bool.or_eq_false_iff, Bool.or_eq_false_iff] at hge
  exact ⟨(anyGe_false_lt hge.1.1).1, (anyGe_false_lt hge.1.2).2.1,
    (anyGe_false_lt hge.2).2.2⟩

theorem target_active {g : GridQ} {i : ℕ} {c : Coord}
    (h : (i, c) ∈ addTargets g) : c ∈ activeCoords g := by
  obtain ⟨-, o, -, -, -, hval⟩ := mem_addTargets.1 h
  exact mem_activeCoords.2 ⟨target_inBounds h,
    lt_of_lt_of_le hval (val_le_dilated g c)⟩

theorem shiftCoord_ne_self {c : Coord} {o : CoordZ}
    (ho : o ∈ neighborOffsets) : shiftCoord c o ≠ coordZ c := by
  obtain ⟨a, b, d⟩ := c
  obtain ⟨o1, o2, o3⟩ := o
  intro h
  simp only [shiftCoord, coordZ, Prod.mk.injEq] at h
  obtain ⟨h1, h2, h3⟩ := h
  have e1 : o1 = 0 := by omega
  have e2 : o2 = 0 := by omega
  have e3 : o3 = 0 := by omega
  subst e1
  subst e2
  subst e3
  have hnot : (((0 : ℤ), (0 : ℤ), (0 : ℤ)) : CoordZ) ∉ neighborOffsets := by decide
  exact hnot ho

theorem adjacent_symm {a b : Coord} (h : adjacent a b) : adjacent b a := by
  obtain ⟨o, ho, hshift⟩ := h
  refine ⟨(-o.1, -o.2.1, -o.2.2), ?_, ?_⟩
  · fin_cases ho <;> simp [neighborOffsets]
  · obtain ⟨a1, a2, a3⟩ := a
    obtain ⟨b1, b2, b3⟩ := b
    simp only [shiftCoord, coordZ, Prod.mk.injEq] at hshift ⊢
    omega

theorem sqDist_comm (a b : List ℝ) : sqDist a b = sqDist b a := by
  induction a generalizing b with
  | nil => cases b <;> rfl
  | cons x xs ih =>
    cases b with
    | nil => rfl
    | cons y ys =>
      unfold sqDist at ih ⊢
      simp only [List.zipWith_cons_cons, List.sum_cons]
      rw [ih ys, show (x - y) ^ 2 = (y - x) ^ 2 by ring]

theorem weightFn_probs_irrel (K sigma a p q : ℝ) :
    weightFn K sigma a p = weightFn K sigma a q := by
  unfold weightFn
  rw [show a * 1 + p * 0 = a by ring, show a * 1 + q * 0 = a by ring]

theorem weightFn_eq_spec (K sigma a p : ℝ) :
    weightFn K sigma a p = K * Real.exp (-a / sigma) := by
  unfold weightFn
  rw [show a * 1 + p * 0 = a by ring]

theorem insertDesc_length (v : ℕ → ℝ) (a : ℕ) (l : List ℕ) :
    (insertDesc v a l).length = l.length + 1 := by
  induction l with
  | nil => rfl
  | cons b bs ih =>
    unfold insertDesc
    by_cases h : v b ≤ v a <;> simp [h, ih]

theorem sortDesc_length (v : ℕ → ℝ) (l : List ℕ) :
    (sortDesc v l).length = l.length := by
  induction l with
  | nil => rfl
  | cons a as ih =>
    unfold sortDesc
    rw [insertDesc_length, ih, List.length_cons]

theorem countP_le_countP {α : Type} (p q : α → Bool) (l : List α)
    (h : ∀ x ∈ l, p x = true → q x = true) : l.countP p ≤ l.countP q := by
  induction l with
  | nil => simp
  | cons a as ih =>
    rw [List.countP_cons, List.countP_cons]
    have hih := ih fun x hx => h x (List.mem_cons_of_mem _ hx)
    by_cases hpa : p a = true
    · rw [if_pos hpa, if_pos (h a (List.mem_cons_self a as) hpa)]
      omega
    · rw [if_neg hpa]
      have : (0 : ℕ) ≤ if q a = true then 1 else 0 := Nat.zero_le _
      omega

theorem gridEqQ_refl (g : GridQ) : gridEqQ g g = true := by
  unfold gridEqQ
  simp [List.all_eq_true]

theorem gridEqF_refl (f : GridF) : gridEqF f f = true := by
  unfold gridEqF
  simp [List.all_eq_true]

/-- The amended content of the shape-mismatch claim as a reusable lemma:
identical density and feature grids pass the entry asserts, and on a grid
without unit spatial dimensions (where the `squeeze()` of line 195 is benign
and `gen_id` cannot raise first) a mismatched edit-attention shape fails only
inside `build_graph`, at the mask indexing of line 207. -/
theorem getEditRegion_attnShape (d : GridQ) (f : GridF) (A O : GridR)
    (perm : List ℕ) (hd : ¬ hasUnitDim d) (hA : A.dims ≠ d.dims) :
    getEditRegion d d f f A O perm = Except.error PipeErr.attnShape := by
  unfold getEditRegion
  rw [if_pos (of_decide_eq_true (by rw [decide_eq_true_eq]; exact gridEqQ_refl d)),
    if_pos (of_decide_eq_true (by rw [decide_eq_true_eq]; exact gridEqF_refl f))]
  unfold buildGraphSeeds
  rw [if_neg (fun hc => hd hc.1), if_pos hA]

/-- Structural soundness of every edge addition: both endpoints are in-range
distinct nodes of active, in-bounds, face-adjacent voxels. -/
theorem edgeAdds_sound {g : GridQ} {f : Coord → List ℝ} {A O : GridR}
    {K sigma : ℝ} {e : ℕ × ℕ × ℝ} (he : e ∈ edgeAdds g f A O K sigma) :
    e.1 < numNodes g ∧ e.2.1 < numNodes g ∧ e.1 ≠ e.2.1
    ∧ coordOf g e.1 ∈ activeCoords g ∧ coordOf g e.2.1 ∈ activeCoords g
    ∧ adjacent (coordOf g e.1) (coordOf g e.2.1) := by
  unfold edgeAdds at he
  rw [List.mem_map] at he
  obtain ⟨⟨i, c⟩, hic, rfl⟩ := he
  obtain ⟨hi, o, ho, hshift, -, -⟩ := mem_addTargets.1 hic
  have hact : c ∈ activeCoords g := target_active hic
  obtain ⟨hjlt, hjcoord⟩ := nodeIdx_spec hact
  have hne : coordOf g i ≠ c := by
    intro hceq
    exact shiftCoord_ne_self ho (by rw [hshift, hceq])
  refine ⟨hi, hjlt, ?_, coordOf_mem hi, ?_, ?_⟩
  · show i ≠ nodeIdx g c
    intro hij
    apply hne
    rw [← hjcoord]
    exact congrArg (coordOf g) hij
  · show coordOf g (nodeIdx g c) ∈ activeCoords g
    rw [hjcoord]
    exact hact
  · show adjacent (coordOf g i) (coordOf g (nodeIdx g c))
    rw [hjcoord]
    exact ⟨o, ho, hshift⟩

/-- When both endpoints pass the code's bound check and have positive raw
density, the builder adds the edge in both ordered directions with the same
weight. -/
theorem edgeAdds_both_directions (g : GridQ) (f : Coord → List ℝ) (A O : GridR)
    (K sigma : ℝ) {i j : ℕ} (hi : i < numNodes g) (hj : j < numNodes g)
    (hadj : adjacent (coordOf g i) (coordOf g j))
    (hbj : codeBoundOK g (coordOf g j)) (hbi : codeBoundOK g (coordOf g i))
    (hvi : 0 < g.val (coordOf g i)) (hvj : 0 < g.val (coordOf g j)) :
    ∃ w, (i, j, w) ∈ edgeAdds g f A O K sigma
      ∧ (j, i, w) ∈ edgeAdds g f A O K sigma := by
  obtain ⟨o, ho, hshift⟩ := hadj
  have hmem1 : (i, coordOf g j) ∈ addTargets g := by
    refine mem_addTargets.2 ⟨hi, o, ho, hshift, ?_, hvj⟩
    rw [lt_anyGe_false hbj.1, lt_anyGe_false hbj.2.1, lt_anyGe_false hbj.2.2]
    rfl
  obtain ⟨o', ho', hshift'⟩ := adjacent_symm ⟨o, ho, hshift⟩
  have hmem2 : (j, coordOf g i) ∈ addTargets g := by
    refine mem_addTargets.2 ⟨hj, o', ho', hshift', ?_, hvi⟩
    rw [lt_anyGe_false hbi.1, lt_anyGe_false hbi.2.1, lt_anyGe_false hbi.2.2]
    rfl
  refine ⟨weightFn K sigma (l2colors f (coordOf g i) (coordOf g j))
    (l2probs (probsAt g A O) i (coordOf g j)), ?_, ?_⟩
  · have := List.mem_map_of_mem (f := fun ic : ℕ × Coord =>
      (ic.1, nodeIdx g ic.2, weightFn K sigma (l2colors f (coordOf g ic.1) ic.2)
        (l2probs (probsAt g A O) ic.1 ic.2))) hmem1
    simp only at this
    rw [nodeIdx_coordOf hj] at this
    exact this
  · have := List.mem_map_of_mem (f := fun ic : ℕ × Coord =>
      (ic.1, nodeIdx g ic.2, weightFn K sigma (l2colors f (coordOf g ic.1) ic.2)
        (l2probs (probsAt g A O) ic.1 ic.2))) hmem2
    simp only at this
    rw [nodeIdx_coordOf hi] at this
    have hw : weightFn K sigma (l2colors f (coordOf g j) (coordOf g i))
        (l2probs (probsAt g A O) j (coordOf g i))
        = weightFn K sigma (l2colors f (coordOf g i) (coordOf g j))
          (l2probs (probsAt g A O) i (coordOf g j)) := by
      rw [weightFn_probs_irrel _ _ _ _ (l2probs (probsAt g A O) i (coordOf g j))]
      unfold l2colors
      rw [sqDist_comm]
    rw [hw] at this
    exact this

set_option maxRecDepth 4000 in
/-- In the fallback-witness instance with 300 active voxels, attention `1` at
voxel 0 and `0` elsewhere, fewer than 300 voxels pass the primary threshold
rule (indeed only voxel 0 can). -/
theorem witness_mask_small : (primaryEditIdxs 300 witEV witOV).length < 300 := by
  unfold primaryEditIdxs
  rw [← List.countP_eq_length_filter]
  have himp : ∀ i ∈ List.range 300,
      (decide ((0.992 : ℝ) * topProbEdit 300 witEV witOV ≤ pEditAt witEV witOV i)) = true
      → (decide (i = 0)) = true := by
    intro i _ hp
    rw [decide_eq_true_eq] at hp ⊢
    by_contra hine
    have hpe : pEditAt witEV witOV i = 1 / 2 := by
      unfold pEditAt pEditVal witEV witOV
      rw [if_neg hine, Real.exp_zero]
      norm_num
    have hp0 : pEditAt witEV witOV 0 = Real.exp 1 / (Real.exp 1 + 1) := by
      unfold pEditAt pEditVal witEV witOV
      rw [if_pos rfl, Real.exp_zero]
    have htop : pEditAt witEV witOV 0 ≤ topProbEdit 300 witEV witOV := by
      unfold topProbEdit
      exact le_foldl_max_real _ _
    have hgt : (1 : ℝ) / 2 < 0.992 * (Real.exp 1 / (Real.exp 1 + 1)) := by
      have he : (2.7182818283 : ℝ) < Real.exp 1 := Real.exp_one_gt_d9
      have hpos : (0 : ℝ) < Real.exp 1 + 1 := by positivity
      rw [← mul_div_assoc, lt_div_iff₀ hpos]
      nlinarith
    have hchain : pEditAt witEV witOV i < 0.992 * topProbEdit 300 witEV witOV := by
      rw [hpe]
      calc (1 : ℝ) / 2 < 0.992 * (Real.exp 1 / (Real.exp 1 + 1)) := hgt
        _ = 0.992 * pEditAt witEV witOV 0 := by rw [hp0]
        _ ≤ 0.992 * topProbEdit 300 witEV witOV :=
            mul_le_mul_of_nonneg_left htop (by norm_num)
    linarith
  have hle := countP_le_countP _ _ (List.range 300) himp
  have hone : (List.range 300).countP (fun i => decide (i = 0)) = 1 := by decide
  omega

/-! ### Claim theorems -/

/-- C1: in the graph built by `build_graph`, a node of the edit-seed index set
receives an infinite-capacity source terminal edge and a node of the
object-seed set (not also an edit seed) an infinite-capacity sink terminal
edge before the solve; hence any labelling of minimum cut capacity (the
contract of a correct max-flow solver) labels the former EDIT and the latter
OBJECT. -/
theorem c1_seeds_respected (g : GridQ) (f : Coord → List ℝ) (A O : GridR)
    (K sigma : ℝ) (editSeeds objSeeds : List ℕ) (L : ℕ → Seg)
    (hmin : ∀ L', cutCap (buildFlowGraph g f A O K sigma editSeeds objSeeds) L
      ≤ cutCap (buildFlowGraph g f A O K sigma editSeeds objSeeds) L') :
    (∀ i, i < numNodes g → i ∈ editSeeds → L i = Seg.edit) ∧
    (∀ i, i < numNodes g → i ∈ objSeeds → i ∉ editSeeds → L i = Seg.object) :=
  mincut_respects_seeds g f A O K sigma editSeeds objSeeds L hmin

/-- Witness for C1: on the 1-voxel grid with node 0 seeded as edit, the
constant-EDIT labelling has cut capacity 0, hence is minimal, and the claim
theorem labels node 0 EDIT. -/
theorem c1_seeds_respected_witness :
    (∀ L', cutCap (buildFlowGraph gOne fEmpty aOne aOne 5 (1 / 10) [0] [])
        (fun _ => Seg.edit)
      ≤ cutCap (buildFlowGraph gOne fEmpty aOne aOne 5 (1 / 10) [0] []) L')
    ∧ (fun _ : ℕ => Seg.edit) 0 = Seg.edit := by
  have hT : addTargets gOne = [] := by decide
  have hzero : cutCap (buildFlowGraph gOne fEmpty aOne aOne 5 (1 / 10) [0] [])
      (fun _ => Seg.edit) = 0 := by
    unfold cutCap
    have he : (buildFlowGraph gOne fEmpty aOne aOne 5 (1 / 10) [0] []).edges = [] := by
      show edgeAdds gOne fEmpty aOne aOne 5 (1 / 10) = []
      unfold edgeAdds
      rw [hT]
      rfl
    have hn : (buildFlowGraph gOne fEmpty aOne aOne 5 (1 / 10) [0] []).numNodes = 1 := by
      show numNodes gOne = 1
      decide
    rw [he, hn, Finset.sum_range_one]
    simp [buildFlowGraph]
  have hmin : ∀ L', cutCap (buildFlowGraph gOne fEmpty aOne aOne 5 (1 / 10) [0] [])
      (fun _ => Seg.edit)
      ≤ cutCap (buildFlowGraph gOne fEmpty aOne aOne 5 (1 / 10) [0] []) L' :=
    fun L' => hzero ▸ zero_le _
  refine ⟨hmin, ?_⟩
  exact (c1_seeds_respected gOne fEmpty aOne aOne 5 (1 / 10) [0] []
    (fun _ => Seg.edit) hmin).1 0 (by decide) (by simp)

/-- C9: the edge-weight function of line 297 is strictly decreasing in the
feature distance for any fixed `K > 0` and `sigma > 0` (the probability term
is multiplied by zero and cannot compensate). -/
theorem c9_weight_strictly_decreasing (K sigma d1 d2 p1 p2 : ℝ)
    (hK : 0 < K) (hs : 0 < sigma) (hd : d1 < d2) :
    weightFn K sigma d2 p2 < weightFn K sigma d1 p1 := by
  rw [weightFn_eq_spec, weightFn_eq_spec]
  have hdiv : -d2 / sigma < -d1 / sigma := by
    apply div_lt_div_of_pos_right ?_ hs
    linarith
  exact mul_lt_mul_of_pos_left (Real.exp_lt_exp.2 hdiv) hK

/-- Witness for C9 at `K = 1`, `sigma = 1`, distances `0 < 1`. -/
theorem c9_weight_strictly_decreasing_witness :
    weightFn 1 1 1 0 < weightFn 1 1 0 0 :=
  c9_weight_strictly_decreasing 1 1 0 1 0 0 (by norm_num) (by norm_num) (by norm_num)

/-- C10: a node index appearing in both seed sets is assigned the edit-source
terminal `(inf, 0)` — the `elif` of line 268 never fires once the edit test of
line 266 has matched — and never the object-sink terminal `(0, inf)`. -/
theorem c10_overlap_seeded_edit (g : GridQ) (f : Coord → List ℝ) (A O : GridR)
    (K sigma : ℝ) (editSeeds objSeeds : List ℕ) (i : ℕ)
    (h1 : i ∈ editSeeds) (_h2 : i ∈ objSeeds) :
    ((buildFlowGraph g f A O K sigma editSeeds objSeeds).srcCap i = ⊤
      ∧ (buildFlowGraph g f A O K sigma editSeeds objSeeds).snkCap i = 0)
    ∧ ¬ ((buildFlowGraph g f A O K sigma editSeeds objSeeds).srcCap i = 0
      ∧ (buildFlowGraph g f A O K sigma editSeeds objSeeds).snkCap i = ⊤) := by
  refine ⟨⟨?_, ?_⟩, ?_⟩
  · simp [buildFlowGraph, h1]
  · simp [buildFlowGraph, h1]
  · intro hcon
    rw [show (buildFlowGraph g f A O K sigma editSeeds objSeeds).srcCap i = ⊤ by
      simp [buildFlowGraph, h1]] at hcon
    exact ENNReal.top_ne_zero hcon.1

/-- Witness for C10: node 0 lies in both seed sets of a concrete instance. -/
theorem c10_overlap_seeded_edit_witness :
    ((buildFlowGraph gOne fEmpty aOne aOne 5 (1 / 10) [0] [0]).srcCap 0 = ⊤
      ∧ (buildFlowGraph gOne fEmpty aOne aOne 5 (1 / 10) [0] [0]).snkCap 0 = 0)
    ∧ ¬ ((buildFlowGraph gOne fEmpty aOne aOne 5 (1 / 10) [0] [0]).srcCap 0 = 0
      ∧ (buildFlowGraph gOne fEmpty aOne aOne 5 (1 / 10) [0] [0]).snkCap 0 = ⊤) :=
  c10_overlap_seeded_edit gOne fEmpty aOne aOne 5 (1 / 10) [0] [0] 0
    (by simp) (by simp)

/-- C2 (amended): when fewer than 300 active voxels satisfy the primary
threshold rule, the seed selector switches to the raw-attention top-k
fallback.  With at least 300 active voxels it returns exactly 300 edit seeds
(and 200 object seeds) chosen by raw attention value; with fewer than 300
active voxels `torch.topk(·, 300)` raises an error instead of returning
fewer. -/
theorem c2_fallback_topk (n : ℕ) (eV oV : ℕ → ℝ) (perm : List ℕ)
    (hn : n ≠ 0) (hmask : (primaryEditIdxs n eV oV).length < 300) :
    (300 ≤ n → selectSeeds n eV oV perm
        = Except.ok ((sortDesc eV (List.range n)).take 300,
            (sortDesc oV (List.range n)).take 200)
      ∧ ((sortDesc eV (List.range n)).take 300).length = 300)
    ∧ (n < 300 → selectSeeds n eV oV perm = Except.error PipeErr.topkRange) := by
  constructor
  · intro h300
    constructor
    · unfold selectSeeds
      rw [if_neg hn, if_pos hmask]
      unfold topkIdx
      rw [if_pos h300, if_pos (le_trans (by norm_num) h300)]
    · rw [List.length_take, sortDesc_length, List.length_range]
      exact min_eq_left h300
  · intro hlt
    unfold selectSeeds
    rw [if_neg hn, if_pos hmask]
    unfold topkIdx
    rw [if_neg (not_le.2 hlt)]

/-- Witness for C2: a 300-voxel instance in which only voxel 0 can pass the
primary rule, so the fallback fires and returns exactly 300 edit seeds. -/
theorem c2_fallback_topk_witness :
    (primaryEditIdxs 300 witEV witOV).length < 300
    ∧ selectSeeds 300 witEV witOV []
        = Except.ok ((sortDesc witEV (List.range 300)).take 300,
            (sortDesc witOV (List.range 300)).take 200)
    ∧ ((sortDesc witEV (List.range 300)).take 300).length = 300 := by
  obtain ⟨h1, h2⟩ := (c2_fallback_topk 300 witEV witOV [] (by norm_num)
    witness_mask_small).1 (le_refl 300)
  exact ⟨witness_mask_small, h1, h2⟩

/-- Counterexample to C2 as stated: the 2x2x2 grid `gEx2` (no unit dimension,
so the `squeeze()` of line 195 is benign) has four active voxels — trivially
fewer than 300 satisfy the primary rule — and the selector then *raises*
(`torch.topk` with `k = 300` over 4 values, line 224) instead of returning
fewer seeds without error. -/
theorem c2_counterexample :
    numNodes gEx2 = 4
    ∧ buildGraphSeeds gEx2 aEx2 aEx2 [] = Except.error PipeErr.topkRange := by
  refine ⟨by decide, ?_⟩
  unfold buildGraphSeeds
  rw [if_neg (fun hc => absurd hc.1 (by decide)),
    if_neg (fun h => h rfl), if_neg (fun h => h rfl)]
  unfold selectSeeds
  have hn : numNodes gEx2 = 4 := by decide
  rw [hn]
  rw [if_neg (by norm_num : ¬(4 = 0))]
  have hmask : (primaryEditIdxs 4 (nodeVal gEx2 aEx2) (nodeVal gEx2 aEx2)).length < 300 := by
    have hle : (primaryEditIdxs 4 (nodeVal gEx2 aEx2) (nodeVal gEx2 aEx2)).length
        ≤ (List.range 4).length := by
      unfold primaryEditIdxs
      exact List.length_filter_le _ _
    simp only [List.length_range] at hle
    omega
  rw [if_pos hmask]
  unfold topkIdx
  rw [if_neg (by norm_num : ¬(300 ≤ 4))]

/-- C4 (amended): the entry asserts of `get_edit_region` compare only the two
models' density values and feature values; on an input without unit spatial
dimensions (so that the `squeeze()`-induced `gen_id` IndexError of line 203
cannot strike first) and with identical density and feature grids, a
mismatched attention-grid shape passes the entry checks and the failure
surfaces only inside `build_graph` (at the boolean-mask indexing of lines
207-208), not as an entry precondition. -/
theorem c4_attn_shape_in_build (d : GridQ) (f : GridF) (A O : GridR)
    (perm : List ℕ) (hd : ¬ hasUnitDim d) (hA : A.dims ≠ d.dims) :
    getEditRegion d d f f A O perm = Except.error PipeErr.attnShape
    ∧ getEditRegion d d f f A O perm ≠ Except.error PipeErr.entryAssert := by
  have h := getEditRegion_attnShape d f A O perm hd hA
  refine ⟨h, ?_⟩
  rw [h]
  simp

/-- Witness for C4 with a `(2,1,1)` edit-attention grid against the `(2,2,2)`
density grid `gEx2` (no unit dimension). -/
theorem c4_attn_shape_in_build_witness :
    ¬ hasUnitDim gEx2
    ∧ aBad.dims ≠ gEx2.dims
    ∧ getEditRegion gEx2 gEx2 fOne fOne aBad aEx2 [] = Except.error PipeErr.attnShape := by
  have hd : ¬ hasUnitDim gEx2 := by decide
  have hne : aBad.dims ≠ gEx2.dims := by decide
  exact ⟨hd, hne, (c4_attn_shape_in_build gEx2 fOne aBad aEx2 [] hd hne).1⟩

/-- Counterexample to C4 as stated: on the 2x2x2 instance, mismatched
attention shapes do not raise the entry precondition error; the run fails
inside graph construction (mask indexing), after nodes were added. -/
theorem c4_counterexample :
    getEditRegion gEx2 gEx2 fOne fOne aBad aEx2 [] = Except.error PipeErr.attnShape
    ∧ PipeErr.attnShape ≠ PipeErr.entryAssert :=
  ⟨getEditRegion_attnShape gEx2 fOne aBad aEx2 [] (by decide) (by decide), by decide⟩

/-- C5 (amended): in the grid that `set_and_visualize_refined_grid` assigns to
the output model, EDIT-labelled coordinates hold the selected sentinel `0`,
the remaining *active* coordinates hold the intermediate sentinel `-10`, and
only inactive coordinates hold the background sentinel `-20`; the separate
thresholding-comparison grid takes only the values `0` and `-20`, so the
intermediate sentinel appears in the primary output, not in the diagnostic
grid. -/
theorem c5_refined_grid_sentinels (g : GridQ) (ids : List ℕ) (idxs : List Coord)
    (A O : GridR) (c : Coord) :
    refinedGrid g ids idxs c
      = (if c ∈ editCoordsOf ids idxs then (0 : ℝ)
        else if c ∈ activeCoords g then -10 else -20)
    ∧ (gtCompareGrid A O c = 0 ∨ gtCompareGrid A O c = -20) := by
  constructor
  · unfold refinedGrid
    rw [writeCells_eval, writeCells_eval]
  · unfold gtCompareGrid
    rw [writeCells_eval]
    by_cases h : c ∈ (coordList A.dimX A.dimY A.dimZ).filter
        fun c' => decide (O.val c' < A.val c')
    · exact Or.inl (if_pos h)
    · exact Or.inr (if_neg h)

/-- Counterexample to C5 as stated: an active voxel not labelled EDIT holds
`-10` in the assigned output grid, not the background sentinel `-20`. -/
theorem c5_counterexample :
    refinedGrid gOne [1] [(0, 0, 0)] (0, 0, 0) = -10 ∧ ((-10 : ℝ) ≠ -20) := by
  constructor
  · unfold refinedGrid
    rw [writeCells_eval, writeCells_eval]
    have h2 : editCoordsOf [1] [(0, 0, 0)] = [] := rfl
    rw [h2]
    have h1 : ((0, 0, 0) : Coord) ∈ activeCoords gOne := by decide
    rw [if_neg (List.not_mem_nil _), if_pos h1]
  · norm_num

/-- C6 (amended): every edge addition of `build_graph` joins two distinct
in-range nodes of face-adjacent, in-bounds, active voxels (never a
self-edge); and an unordered adjacent pair both of whose voxels pass the
code's bound check and have strictly positive *raw* (undilated) density gets
one addition per ordered direction with identical weight.  Pairs with an
endpoint that is active only through dilation (raw density `≤ 0`), or that
fails the all-components-under-every-dimension check, may get fewer
additions. -/
theorem c6_edge_structure (g : GridQ) (f : Coord → List ℝ) (A O : GridR)
    (K sigma : ℝ) :
    (∀ e ∈ edgeAdds g f A O K sigma,
        e.1 < numNodes g ∧ e.2.1 < numNodes g ∧ e.1 ≠ e.2.1
        ∧ inBoundsC g (coordOf g e.1) ∧ inBoundsC g (coordOf g e.2.1)
        ∧ 0 < dilated g (coordOf g e.1) ∧ 0 < dilated g (coordOf g e.2.1)
        ∧ adjacent (coordOf g e.1) (coordOf g e.2.1))
    ∧ (∀ i j, i < numNodes g → j < numNodes g →
        adjacent (coordOf g i) (coordOf g j) →
        codeBoundOK g (coordOf g i) → codeBoundOK g (coordOf g j) →
        0 < g.val (coordOf g i) → 0 < g.val (coordOf g j) →
        ∃ w, (i, j, w) ∈ edgeAdds g f A O K sigma
          ∧ (j, i, w) ∈ edgeAdds g f A O K sigma) := by
  constructor
  · intro e he
    obtain ⟨h1, h2, h3, h4, h5, h6⟩ := edgeAdds_sound he
    have hb4 := mem_activeCoords.1 h4
    have hb5 := mem_activeCoords.1 h5
    exact ⟨h1, h2, h3, hb4.1, hb5.1, hb4.2, hb5.2, h6⟩
  · intro i j hi hj hadj hbi hbj hvi hvj
    exact edgeAdds_both_directions g f A O K sigma hi hj hadj hbj hbi hvi hvj

/-- Witness for C6: in `gEx2` the voxels of nodes 0 and 1 are adjacent with
positive raw densities, and both ordered additions exist with one weight. -/
theorem c6_edge_structure_witness :
    adjacent (coordOf gEx2 0) (coordOf gEx2 1)
    ∧ 0 < gEx2.val (coordOf gEx2 0) ∧ 0 < gEx2.val (coordOf gEx2 1)
    ∧ ∃ w, (0, 1, w) ∈ edgeAdds gEx2 fEmpty aEx2 aEx2 5 (1 / 10)
        ∧ (1, 0, w) ∈ edgeAdds gEx2 fEmpty aEx2 aEx2 5 (1 / 10) := by
  have hadj : adjacent (coordOf gEx2 0) (coordOf gEx2 1) := by decide
  refine ⟨hadj, by decide, by decide, ?_⟩
  exact (c6_edge_structure gEx2 fEmpty aEx2 aEx2 5 (1 / 10)).2 0 1
    (by decide) (by decide) hadj (by decide) (by decide) (by decide) (by decide)

/-- Counterexample to C6 as stated: in `gEx2` the voxels `(0,0,0)` (node 0)
and `(0,1,0)` (node 2) are face-adjacent, in-bounds and both active, yet the
builder adds only the ordered direction `2 → 0`; no addition `(0, 2, _)`
exists, because the raw density at `(0,1,0)` is non-positive (it is active
only through dilation). -/
theorem c6_counterexample :
    (0 < dilated gEx2 (0, 0, 0) ∧ 0 < dilated gEx2 (0, 1, 0))
    ∧ adjacent ((0, 0, 0) : Coord) (0, 1, 0)
    ∧ coordOf gEx2 0 = (0, 0, 0) ∧ coordOf gEx2 2 = (0, 1, 0)
    ∧ (∃ w, (2, 0, w) ∈ edgeAdds gEx2 fEmpty aEx2 aEx2 5 (1 / 10))
    ∧ (∀ w, (0, 2, w) ∉ edgeAdds gEx2 fEmpty aEx2 aEx2 5 (1 / 10)) := by
  have hT : addTargets gEx2
      = [(0, (0, 0, 1)), (1, (0, 0, 0)), (2, (0, 0, 0)), (3, (0, 0, 1))] := by decide
  refine ⟨⟨by decide, by decide⟩, by decide, by decide, by decide, ?_, ?_⟩
  · refine ⟨weightFn 5 (1 / 10) (l2colors fEmpty (coordOf gEx2 2) (0, 0, 0))
      (l2probs (probsAt gEx2 aEx2 aEx2) 2 (0, 0, 0)), ?_⟩
    unfold edgeAdds
    rw [hT]
    simp only [List.map_cons, List.map_nil]
    have h0 : nodeIdx gEx2 ((0 : ℕ), (0 : ℕ), (0 : ℕ)) = 0 := by decide
    rw [h0]
    exact List.mem_cons_of_mem _ (List.mem_cons_of_mem _ (List.mem_cons_self _ _))
  · intro w hw
    unfold edgeAdds at hw
    rw [List.mem_map] at hw
    obtain ⟨⟨i, c⟩, hic, heq⟩ := hw
    simp only [Prod.mk.injEq] at heq
    obtain ⟨rfl, h2, -⟩ := heq
    rw [hT] at hic
    simp only [List.mem_cons, List.not_mem_nil, or_false, Prod.mk.injEq] at hic
    rcases hic with ⟨-, rfl⟩ | ⟨h, -⟩ | ⟨h, -⟩ | ⟨h, -⟩
    · exact absurd h2 (by decide)
    · exact absurd h (by decide)
    · exact absurd h (by decide)
    · exact absurd h (by decide)

/-- C7: the capacity of every edge added between a voxel and its neighbour is
`K * exp(-||feature(v) - feature(n)||_2 / sigma)`: the probability term in
line 297 is multiplied by `0.0` and drops out, leaving exactly the Euclidean
feature distance in the exponent. -/
theorem c7_edge_capacity (g : GridQ) (f : Coord → List ℝ) (A O : GridR)
    (K sigma : ℝ) (e : ℕ × ℕ × ℝ) (he : e ∈ edgeAdds g f A O K sigma) :
    e.2.2 = K * Real.exp (-(l2colors f (coordOf g e.1) (coordOf g e.2.1)) / sigma) := by
  unfold edgeAdds at he
  rw [List.mem_map] at he
  obtain ⟨⟨i, c⟩, hic, rfl⟩ := he
  have hact : c ∈ activeCoords g := target_active hic
  obtain ⟨-, hjcoord⟩ := nodeIdx_spec hact
  show weightFn K sigma (l2colors f (coordOf g i) c) (l2probs (probsAt g A O) i c)
    = K * Real.exp (-(l2colors f (coordOf g i) (coordOf g (nodeIdx g c))) / sigma)
  rw [hjcoord, weightFn_eq_spec]

/-- Witness for C7 at the concrete edge `0 → 1` of `gEx2`. -/
theorem c7_edge_capacity_witness :
    ((0 : ℕ), (1 : ℕ), weightFn 5 (1 / 10)
        (l2colors fEmpty (coordOf gEx2 0) ((0 : ℕ), (0 : ℕ), (1 : ℕ)))
        (l2probs (probsAt gEx2 aEx2 aEx2) 0 (0, 0, 1)))
      ∈ edgeAdds gEx2 fEmpty aEx2 aEx2 5 (1 / 10)
    ∧ weightFn 5 (1 / 10)
        (l2colors fEmpty (coordOf gEx2 0) ((0 : ℕ), (0 : ℕ), (1 : ℕ)))
        (l2probs (probsAt gEx2 aEx2 aEx2) 0 (0, 0, 1))
      = 5 * Real.exp (-(l2colors fEmpty (coordOf gEx2 0) (coordOf gEx2 1)) / (1 / 10)) := by
  have hT : addTargets gEx2
      = [(0, (0, 0, 1)), (1, (0, 0, 0)), (2, (0, 0, 0)), (3, (0, 0, 1))] := by decide
  have hmem : ((0 : ℕ), (1 : ℕ), weightFn 5 (1 / 10)
      (l2colors fEmpty (coordOf gEx2 0) ((0 : ℕ), (0 : ℕ), (1 : ℕ)))
      (l2probs (probsAt gEx2 aEx2 aEx2) 0 (0, 0, 1)))
      ∈ edgeAdds gEx2 fEmpty aEx2 aEx2 5 (1 / 10) := by
    unfold edgeAdds
    rw [hT]
    simp only [List.map_cons, List.map_nil]
    have h1 : nodeIdx gEx2 ((0 : ℕ), (0 : ℕ), (1 : ℕ)) = 1 := by decide
    rw [h1]
    exact List.mem_cons_self _ _
  exact ⟨hmem, c7_edge_capacity gEx2 fEmpty aEx2 aEx2 5 (1 / 10) _ hmem⟩

/-- C8: the node-id hash `gen_id` is injective over in-bounds coordinates, so
the coordinate-to-node mapping of one segmentation run is a bijection: the
active-coordinate list has no duplicates, exactly the active in-bounds
coordinates appear in it, and every active coordinate is assigned exactly one
dense node index in `[0, num_nodes)` from which the coordinate is recovered. -/
theorem c8_node_bijection (g : GridQ) :
    (∀ c1 c2 : Coord,
        c1.1 < g.dimX → c1.2.1 < g.dimY → c1.2.2 < g.dimZ →
        c2.1 < g.dimX → c2.2.1 < g.dimY → c2.2.2 < g.dimZ →
        genId c1 g.dimX g.dimY = genId c2 g.dimX g.dimY → c1 = c2)
    ∧ (activeCoords g).Nodup
    ∧ (∀ c : Coord, c ∈ activeCoords g ↔ inBoundsC g c ∧ 0 < dilated g c)
    ∧ (∀ c : Coord, c ∈ activeCoords g →
        nodeIdx g c < numNodes g ∧ coordOf g (nodeIdx g c) = c) := by
  refine ⟨?_, nodup_activeCoords g, fun c => mem_activeCoords,
    fun c hc => nodeIdx_spec hc⟩
  intro c1 c2 h1 h2 _ h3 h4 _ h
  exact genId_inj h1 h2 h3 h4 h

/-- Witness for C8 at concrete coordinates of `gEx2`. -/
theorem c8_node_bijection_witness :
    (((0, 1, 0) : Coord) ∈ activeCoords gEx2 ↔ inBoundsC gEx2 (0, 1, 0) ∧ 0 < dilated gEx2 (0, 1, 0))
    ∧ (nodeIdx gEx2 (0, 1, 0) < numNodes gEx2
      ∧ coordOf gEx2 (nodeIdx gEx2 (0, 1, 0)) = (0, 1, 0))
    ∧ ((1, 1, 1) : Coord) = (1, 1, 1) := by
  refine ⟨(c8_node_bijection gEx2).2.2.1 (0, 1, 0),
    (c8_node_bijection gEx2).2.2.2 (0, 1, 0) (by decide),
    (c8_node_bijection gEx2).1 (1, 1, 1) (1, 1, 1)
      (by decide) (by decide) (by decide) (by decide) (by decide) (by decide) rfl⟩

end VoxE
